import Mathlib

/-!
Verification development for the maven-repo server (a caching, authenticating
HTTP reverse proxy for Maven-style artifact repositories).

The Rust sources are embedded shallowly: pure logic becomes Lean functions,
stateful code becomes explicit state passing, external collaborators
(the bcrypt verifier, the RFC-2822 date parser, the filesystem and HTTP
layers) become explicit oracle parameters or event scripts.  Machine
integers are modelled as `Nat` (no arithmetic in this code can overflow in
a way the claims depend on).  Rust `HashMap`s are modelled as association
lists looked up by first match; `HashMap::extend` keeps the other map's
binding on key collision, matching the Rust semantics keywise.
-/

/-! ## Base64 (the `base64` crate's STANDARD engine, used for the ETag value)

`src/get.rs` builds the ETag header as
`format!(r#""blake3-{}""#, base64::engine::general_purpose::STANDARD.encode(hash.as_bytes()))`.
`base64StandardEncode` embeds the STANDARD engine: the RFC 4648 alphabet
with `=` padding. -/

def base64Table : List Char :=
  "ABCDEFGHIJKLMNOPQRSTUVWXYZabcdefghijklmnopqrstuvwxyz0123456789+/".toList

def b64Char (n : Nat) : Char := base64Table.getD n 'A'

/-- RFC 4648 standard base64 with `=` padding, over bytes given as `Nat` values. -/
def base64StandardEncode : List Nat → List Char
  | [] => []
  | [b1] => [b64Char (b1 / 4), b64Char (b1 % 4 * 16), '=', '=']
  | [b1, b2] => [b64Char (b1 / 4), b64Char (b1 % 4 * 16 + b2 / 16), b64Char (b2 % 16 * 4), '=']
  | b1 :: b2 :: b3 :: rest =>
    b64Char (b1 / 4) :: b64Char (b1 % 4 * 16 + b2 / 16) ::
      b64Char (b2 % 16 * 4 + b3 / 64) :: b64Char (b3 % 64) :: base64StandardEncode rest

/-- The ETag header value built by `get_repo_file` (src/get.rs line 126) and
`header_check` (src/get/header.rs line 42):
`format!(r#""blake3-{}""#, STANDARD.encode(hash.as_bytes()))`. -/
def etagHeaderValue (hash : List Nat) : List Char :=
  '"' :: ("blake3-".toList ++ base64StandardEncode hash ++ ['"'])

theorem b64Char_mem_or_default (n : Nat) : b64Char n ∈ base64Table ∨ b64Char n = 'A' := by
  unfold b64Char List.getD
  cases h : base64Table.get? n with
  | none => right; simp [h]
  | some c => left; simp only [h, Option.getD_some]; exact List.get?_mem h

theorem b64Char_ne_eq (n : Nat) : b64Char n ≠ '=' := by
  rcases b64Char_mem_or_default n with h | h
  · intro hc; rw [hc] at h; revert h; decide
  · rw [h]; decide

theorem base64StandardEncode_length (l : List Nat) :
    (base64StandardEncode l).length = 4 * ((l.length + 2) / 3) := by
  induction l using base64StandardEncode.induct with
  | case1 => rfl
  | case2 b1 => simp [base64StandardEncode]
  | case3 b1 b2 => simp [base64StandardEncode]
  | case4 b1 b2 b3 rest ih =>
    simp only [base64StandardEncode, List.length_cons, ih]
    omega

theorem base64StandardEncode_pad (l : List Nat) (h : l.length % 3 = 2) :
    ∃ cs, base64StandardEncode l = cs ++ ['='] ∧ '=' ∉ cs := by
  induction l using base64StandardEncode.induct with
  | case1 => simp at h
  | case2 b1 => simp at h
  | case3 b1 b2 =>
    refine ⟨[b64Char (b1 / 4), b64Char (b1 % 4 * 16 + b2 / 16), b64Char (b2 % 16 * 4)], rfl, ?_⟩
    simp only [List.mem_cons, List.not_mem_nil, or_false]
    push_neg
    exact ⟨(b64Char_ne_eq _).symm, (b64Char_ne_eq _).symm, (b64Char_ne_eq _).symm⟩
  | case4 b1 b2 b3 rest ih =>
    have hr : rest.length % 3 = 2 := by
      simp only [List.length_cons] at h; omega
    obtain ⟨cs, hcs, hmem⟩ := ih hr
    refine ⟨b64Char (b1 / 4) :: b64Char (b1 % 4 * 16 + b2 / 16) ::
      b64Char (b2 % 16 * 4 + b3 / 64) :: b64Char (b3 % 64) :: cs, ?_, ?_⟩
    · simp [base64StandardEncode, hcs]
    · simp only [List.mem_cons, not_or]
      exact ⟨(Ne.symm (b64Char_ne_eq _)), (Ne.symm (b64Char_ne_eq _)),
        (Ne.symm (b64Char_ne_eq _)), (Ne.symm (b64Char_ne_eq _)), hmem⟩

/-! ## Repository configuration (src/repository.rs)

`Repository` mirrors the Rust struct field for field.  `Duration` values
become `Nat` (nanoseconds); Rust `HashMap`s become association lists looked
up by first match (`assocGet`); a real `HashMap` has unique keys, and
`hashMapExtend` reproduces `HashMap::extend`'s keywise semantics: the
extending map's binding wins on key collision. -/

structure Header where
  name : String
  value : String
deriving DecidableEq, Repr

structure PathAuthorization where
  read : Bool
  put : Bool
  delete : Bool
deriving DecidableEq, Repr

structure Token where
  hash : String
  paths : List (String × PathAuthorization)
deriving DecidableEq, Repr

structure LocalUpstream where
  path : String
deriving DecidableEq, Repr

structure RemoteUpstream where
  url : String
  timeout : Nat
  time_fresh : Option Nat
deriving DecidableEq, Repr

inductive Upstream where
  | local (u : LocalUpstream)
  | remote (u : RemoteUpstream)
deriving DecidableEq, Repr

structure Repository where
  stores_remote_upstream : Option Bool
  publicly_readable : Option Bool
  hide_directory_listings : Option Bool
  infer_content_type_on_file_extension : Option Bool
  time_fresh : Option Nat
  max_file_size : Option Nat
  cache_control_file : List Header
  cache_control_metadata : List Header
  cache_control_dir_listings : List Header
  cache_control_status_code : List (Nat × List Header)
  upstreams : List Upstream
  tokens : List (String × Token)
deriving DecidableEq, Repr

/-- First-match association-list lookup, i.e. `HashMap::get`. -/
def assocGet {α : Type} (m : List (String × α)) (k : String) : Option α :=
  (m.find? (fun p => p.1 == k)).map (fun p => p.2)

/-- `HashMap::extend`: every binding of `other` is inserted into `self`,
overwriting `self`'s binding for the same key.  Keywise this means a lookup
hits `other` first and falls back to `self`. -/
def hashMapExtend {α : Type} (self other : List (String × α)) : List (String × α) :=
  other ++ self.filter (fun kv => (assocGet other kv.1).isNone)

/-- `Repository::merge` (src/repository.rs lines 61-72).  Note the source
merges exactly five of the six scalar `Option` fields — `time_fresh` is not
touched — extends the three header `Vec`s, and `HashMap::extend`s
`cache_control_status_code` and `tokens`.  (`cache_control_status_code`'s
keys are `u16`; we render them as decimal strings to reuse `assocGet`.) -/
def Repository.merge (self other : Repository) : Repository :=
  { self with
    stores_remote_upstream := self.stores_remote_upstream.or other.stores_remote_upstream
    publicly_readable := self.publicly_readable.or other.publicly_readable
    hide_directory_listings := self.hide_directory_listings.or other.hide_directory_listings
    infer_content_type_on_file_extension :=
      self.infer_content_type_on_file_extension.or other.infer_content_type_on_file_extension
    max_file_size := self.max_file_size.or other.max_file_size
    cache_control_file := self.cache_control_file ++ other.cache_control_file
    cache_control_metadata := self.cache_control_metadata ++ other.cache_control_metadata
    cache_control_dir_listings := self.cache_control_dir_listings ++ other.cache_control_dir_listings
    cache_control_status_code :=
      (other.cache_control_status_code ++ self.cache_control_status_code.filter
        (fun kv => (other.cache_control_status_code.find? (fun p => p.1 == kv.1)).isNone))
    tokens := hashMapExtend self.tokens other.tokens }

/-! ## Authorization gate (`Repository::check_auth`, src/repository.rs lines 132-178) -/

structure BasicAuthentication where
  username : String
  password : String
deriving DecidableEq, Repr

inductive Method where
  | get
  | put
  | delete
  | other
deriving DecidableEq, Repr

/-- The error responses `check_auth` can produce: `crate::UNAUTHORIZED` (401),
`crate::FORBIDDEN` (403), and the 500 built when `bcrypt::verify` itself errors. -/
inductive AuthErr where
  | unauthorized
  | forbidden
  | internalServerError
deriving DecidableEq, Repr

/-- `Repository::check_auth`.  `bcryptVerify password hash` models
`bcrypt::verify(&auth.password, &token.hash)`: `some b` for `Ok(b)`,
`none` for `Err(_)`. -/
def Repository.check_auth (self : Repository) (bcryptVerify : String → String → Option Bool)
    (method : Method) (auth : Option BasicAuthentication) (path : String) :
    Except AuthErr Bool :=
  let needs_auth := match method with
    | .get => !(self.publicly_readable.getD true)
    | _ => true
  if needs_auth then
    match auth with
    | none => .error .unauthorized
    | some auth =>
      match assocGet self.tokens auth.username with
      | none => .error .unauthorized
      | some token =>
        match assocGet token.paths path with
        | none => .error .unauthorized
        | some pathAuth =>
          match bcryptVerify auth.password token.hash with
          | some true =>
            if !(match method with
                | .get => pathAuth.read
                | .put => pathAuth.put
                | .delete => pathAuth.delete
                | .other => false) then
              .error .forbidden
            else
              .ok true
          | some false => .error .unauthorized
          | none => .error .internalServerError
  else
    .ok false

/-! ## Repository graph expansion (`get_repo_look_locations`, src/repository.rs lines 241-312)

`check_repo` walks a stack of configs; for each `Upstream::Local` entry it
consults the `visited` set, and on first visit resolves the config from the
process-wide repository cache (pushing it to both the output and the work
stack).  We model the schedule in which every upstream config is already
cached (`REPOSITORIES` holds it), so the whole expansion happens inside one
`check_repo` call; an uncached path corresponds to a failed or spawned
fetch and contributes no output entry here.  The Rust `Vec` stack pops from
the end; the model's list head is the stack top, so freshly pushed entries
are prepended in reverse.  `lookLoop` carries explicit fuel; the
termination theorem shows a sufficient fuel always exists. -/

def upstreamLocalPaths (r : Repository) : List String :=
  r.upstreams.filterMap (fun u => match u with
    | .local l => some l.path
    | .remote _ => none)

/-- The inner `for upstream in &config.upstreams` loop of `check_repo`:
thread `visited`, the output list, and the list of stack pushes through one
config's `Local` upstream paths. -/
def lookProcessUpstreams (cache : List (String × Repository)) :
    List String → List String → List (String × Repository) → List (String × Repository) →
    List String × List (String × Repository) × List (String × Repository)
  | [], visited, out, pushes => (visited, out, pushes)
  | p :: rest, visited, out, pushes =>
    if p ∈ visited then
      lookProcessUpstreams cache rest visited out pushes
    else
      match assocGet cache p with
      | some cfg =>
        lookProcessUpstreams cache rest (p :: visited) (out ++ [(p, cfg)]) (pushes ++ [(p, cfg)])
      | none =>
        lookProcessUpstreams cache rest (p :: visited) out pushes

/-- The `while let Some((repo, config)) = configs.pop()` loop of `check_repo`,
with explicit fuel. -/
def lookLoop (cache : List (String × Repository)) :
    Nat → List (String × Repository) → List String → List (String × Repository) →
    Option (List (String × Repository) × List String)
  | 0, _, _, _ => none
  | _ + 1, [], visited, out => some (out, visited)
  | fuel + 1, (_, cfg) :: rest, visited, out =>
    match lookProcessUpstreams cache (upstreamLocalPaths cfg) visited out [] with
    | (visited', out', pushes) => lookLoop cache fuel (pushes.reverse ++ rest) visited' out'

/-- `get_repo_look_locations`: the output list starts with the root
repository, then `check_repo` expands the `Local` upstream graph. -/
def get_repo_look_locations (cache : List (String × Repository)) (fuel : Nat)
    (repo : String) (config : Repository) : Option (List (String × Repository)) :=
  (lookLoop cache fuel [(repo, config)] [] [(repo, config)]).map (fun r => r.1)

/-- How many times repository path `p` occurs in an expansion result. -/
def countPath (out : List (String × Repository)) (p : String) : Nat :=
  (out.filter (fun q => q.1 == p)).length


/-- `1` when `q` is the root repository name, else `0` (counting helper). -/
def rootBonus (root q : String) : Nat := if q = root then 1 else 0

/-- `1` when `q` is in the visited set, else `0` (counting helper). -/
def memBonus (visited : List String) (q : String) : Nat := if q ∈ visited then 1 else 0

theorem rootBonus_le (root q : String) : rootBonus root q ≤ 1 := by
  unfold rootBonus; split <;> omega

theorem memBonus_le (visited : List String) (q : String) : memBonus visited q ≤ 1 := by
  unfold memBonus; split <;> omega

theorem memBonus_pos (visited : List String) (q : String) (h : q ∈ visited) :
    memBonus visited q = 1 := by
  unfold memBonus; rw [if_pos h]

theorem memBonus_neg (visited : List String) (q : String) (h : q ∉ visited) :
    memBonus visited q = 0 := by
  unfold memBonus; rw [if_neg h]

theorem memBonus_cons_of_ne (visited : List String) (p q : String) (h : q ≠ p) :
    memBonus (p :: visited) q = memBonus visited q := by
  unfold memBonus
  by_cases hq : q ∈ visited
  · rw [if_pos hq, if_pos (List.mem_cons_of_mem _ hq)]
  · rw [if_neg hq, if_neg (by simp [List.mem_cons, h, hq])]

theorem countPath_append (a b : List (String × Repository)) (p : String) :
    countPath (a ++ b) p = countPath a p + countPath b p := by
  simp [countPath, List.filter_append]

theorem countPath_single_eq (e : String × Repository) (p : String) (h : e.1 = p) :
    countPath [e] p = 1 := by
  simp [countPath, List.filter_cons, h]

theorem countPath_single_ne (e : String × Repository) (p : String) (h : e.1 ≠ p) :
    countPath [e] p = 0 := by
  simp [countPath, List.filter_cons, h]

theorem lookProcessUpstreams_count (cache : List (String × Repository)) (root : String) :
    ∀ (ups visited : List String) (out pushes : List (String × Repository)),
    (∀ q, countPath out q ≤ rootBonus root q + memBonus visited q) →
    ∀ q, countPath (lookProcessUpstreams cache ups visited out pushes).2.1 q ≤
      rootBonus root q + memBonus (lookProcessUpstreams cache ups visited out pushes).1 q := by
  intro ups
  induction ups with
  | nil => intro visited out pushes hInv q; simpa [lookProcessUpstreams] using hInv q
  | cons p rest ih =>
    intro visited out pushes hInv q
    by_cases hv : p ∈ visited
    · simp only [lookProcessUpstreams, if_pos hv]
      exact ih visited out pushes hInv q
    · simp only [lookProcessUpstreams, if_neg hv]
      cases hc : assocGet cache p with
      | some cfg =>
        refine ih (p :: visited) (out ++ [(p, cfg)]) (pushes ++ [(p, cfg)]) ?_ q
        intro q'
        rw [countPath_append]
        by_cases hq : (p : String) = q'
        · rw [countPath_single_eq _ _ hq]
          have h1 := hInv q'
          rw [← hq] at h1 ⊢
          rw [memBonus_neg visited p hv] at h1
          rw [memBonus_pos _ p (List.mem_cons_self p visited)]
          omega
        · rw [countPath_single_ne _ _ hq]
          have h1 := hInv q'
          rw [memBonus_cons_of_ne visited p q' (Ne.symm hq)]
          omega
      | none =>
        refine ih (p :: visited) out pushes ?_ q
        intro q'
        have h1 := hInv q'
        by_cases hq : (p : String) = q'
        · rw [← hq] at h1 ⊢
          rw [memBonus_neg visited p hv] at h1
          rw [memBonus_pos _ p (List.mem_cons_self p visited)]
          omega
        · rw [memBonus_cons_of_ne visited p q' (Ne.symm hq)]
          omega

theorem lookLoop_count (cache : List (String × Repository)) (root : String) :
    ∀ (fuel : Nat) (stack : List (String × Repository)) (visited : List String)
      (out : List (String × Repository)) res,
    (∀ q, countPath out q ≤ rootBonus root q + memBonus visited q) →
    lookLoop cache fuel stack visited out = some res →
    ∀ q, countPath res.1 q ≤ rootBonus root q + 1 := by
  intro fuel
  induction fuel with
  | zero => intro stack visited out res _ h; simp [lookLoop] at h
  | succ fuel ih =>
    intro stack visited out res hInv h q
    cases stack with
    | nil =>
      simp only [lookLoop, Option.some.injEq] at h
      subst h
      have h1 := hInv q
      have h2 := memBonus_le visited q
      show countPath out q ≤ rootBonus root q + 1
      omega
    | cons top rest =>
      simp only [lookLoop] at h
      exact ih _ _ _ res
        (lookProcessUpstreams_count cache root (upstreamLocalPaths top.2) visited out [] hInv) h q

/-- Number of candidate paths in `U` not yet visited (termination measure part). -/
def unvisitedCount : List String → List String → Nat
  | [], _ => 0
  | u :: rest, visited => (if u ∈ visited then 0 else 1) + unvisitedCount rest visited

theorem unvisitedCount_mono (U : List String) (visited visited' : List String)
    (h : ∀ q, q ∈ visited → q ∈ visited') :
    unvisitedCount U visited' ≤ unvisitedCount U visited := by
  induction U with
  | nil => simp [unvisitedCount]
  | cons u rest ih =>
    simp only [unvisitedCount]
    by_cases hu : u ∈ visited
    · rw [if_pos hu, if_pos (h u hu)]
      omega
    · by_cases hu' : u ∈ visited'
      · rw [if_pos hu', if_neg hu]
        omega
      · rw [if_neg hu', if_neg hu]
        omega

theorem unvisitedCount_cons_lt (U : List String) (visited : List String) (p : String)
    (hU : p ∈ U) (hnv : p ∉ visited) :
    unvisitedCount U (p :: visited) < unvisitedCount U visited := by
  induction U with
  | nil => simp at hU
  | cons u rest ih =>
    simp only [unvisitedCount]
    have hmono := unvisitedCount_mono rest visited (p :: visited)
      (fun q hq => List.mem_cons_of_mem _ hq)
    rcases List.mem_cons.mp hU with hu | hu
    · subst hu
      rw [if_neg hnv, if_pos (List.mem_cons_self _ _)]
      omega
    · have := ih hu
      by_cases hv : u ∈ visited
      · rw [if_pos hv, if_pos (List.mem_cons_of_mem _ hv)]
        omega
      · by_cases hv' : u ∈ p :: visited
        · rw [if_pos hv', if_neg hv]; omega
        · rw [if_neg hv', if_neg hv]; omega

theorem lookProcessUpstreams_visited_mono (cache : List (String × Repository)) :
    ∀ (ups visited : List String) (out pushes : List (String × Repository)),
    ∀ q, q ∈ visited → q ∈ (lookProcessUpstreams cache ups visited out pushes).1 := by
  intro ups
  induction ups with
  | nil => intro visited out pushes q hq; simpa [lookProcessUpstreams] using hq
  | cons p rest ih =>
    intro visited out pushes q hq
    by_cases hv : p ∈ visited
    · simp only [lookProcessUpstreams, if_pos hv]
      exact ih visited out pushes q hq
    · simp only [lookProcessUpstreams, if_neg hv]
      cases hc : assocGet cache p with
      | some cfg => exact ih _ _ _ q (List.mem_cons_of_mem _ hq)
      | none => exact ih _ _ _ q (List.mem_cons_of_mem _ hq)

theorem lookProcessUpstreams_measure (cache : List (String × Repository)) (U : List String) :
    ∀ (ups visited : List String) (out pushes : List (String × Repository)),
    (∀ q, q ∈ ups → q ∈ U) →
    unvisitedCount U (lookProcessUpstreams cache ups visited out pushes).1 +
      (lookProcessUpstreams cache ups visited out pushes).2.2.length ≤
    unvisitedCount U visited + pushes.length := by
  intro ups
  induction ups with
  | nil => intro visited out pushes _; simp [lookProcessUpstreams]
  | cons p rest ih =>
    intro visited out pushes hups
    have hrest : ∀ q, q ∈ rest → q ∈ U := fun q hq => hups q (List.mem_cons_of_mem _ hq)
    by_cases hv : p ∈ visited
    · simp only [lookProcessUpstreams, if_pos hv]
      exact ih visited out pushes hrest
    · have hpU : p ∈ U := hups p (List.mem_cons_self _ _)
      have hlt := unvisitedCount_cons_lt U visited p hpU hv
      cases hc : assocGet cache p with
      | some cfg =>
        simp only [lookProcessUpstreams, if_neg hv, hc]
        have := ih (p :: visited) (out ++ [(p, cfg)]) (pushes ++ [(p, cfg)]) hrest
        simp only [List.length_append, List.length_cons, List.length_nil] at this
        omega
      | none =>
        simp only [lookProcessUpstreams, if_neg hv, hc]
        have := ih (p :: visited) out pushes hrest
        omega

theorem lookProcessUpstreams_pushes (cache : List (String × Repository)) :
    ∀ (ups visited : List String) (out pushes : List (String × Repository)),
    ∀ e, e ∈ (lookProcessUpstreams cache ups visited out pushes).2.2 →
      e ∈ pushes ∨ assocGet cache e.1 = some e.2 := by
  intro ups
  induction ups with
  | nil => intro visited out pushes e he; exact Or.inl (by simpa [lookProcessUpstreams] using he)
  | cons p rest ih =>
    intro visited out pushes e he
    by_cases hv : p ∈ visited
    · simp only [lookProcessUpstreams, if_pos hv] at he
      exact ih visited out pushes e he
    · simp only [lookProcessUpstreams, if_neg hv] at he
      cases hc : assocGet cache p with
      | some cfg =>
        rw [hc] at he
        rcases ih _ _ _ e he with hmem | hfound
        · rcases List.mem_append.mp hmem with hmem | hmem
          · exact Or.inl hmem
          · right
            have : e = (p, cfg) := by simpa using hmem
            subst this
            exact hc
        · exact Or.inr hfound
      | none =>
        rw [hc] at he
        exact ih _ _ _ e he

theorem assocGet_mem {α : Type} (m : List (String × α)) (k : String) (v : α)
    (h : assocGet m k = some v) : (k, v) ∈ m := by
  unfold assocGet at h
  cases hfind : m.find? (fun p => p.1 == k) with
  | none => rw [hfind] at h; simp at h
  | some pr =>
    rw [hfind] at h
    simp only [Option.map_some', Option.some.injEq] at h
    have hkey : pr.1 = k := by simpa using List.find?_some hfind
    have hmem := List.mem_of_find?_eq_some hfind
    cases pr with
    | mk a b =>
      simp only at hkey h
      rw [← hkey, ← h]
      exact hmem

theorem lookLoop_isSome (cache : List (String × Repository)) (U : List String)
    (hcache : ∀ pr, pr ∈ cache → ∀ q, q ∈ upstreamLocalPaths pr.2 → q ∈ U) :
    ∀ (fuel : Nat) (stack : List (String × Repository)) (visited : List String)
      (out : List (String × Repository)),
    (∀ pc, pc ∈ stack → ∀ q, q ∈ upstreamLocalPaths pc.2 → q ∈ U) →
    unvisitedCount U visited + stack.length < fuel →
    (lookLoop cache fuel stack visited out).isSome := by
  intro fuel
  induction fuel with
  | zero => intro stack visited out _ hm; omega
  | succ fuel ih =>
    intro stack visited out hstack hm
    cases stack with
    | nil => simp [lookLoop]
    | cons top rest =>
      simp only [lookLoop]
      cases hr : lookProcessUpstreams cache (upstreamLocalPaths top.2) visited out [] with
      | mk visited' rest' =>
        cases rest' with
        | mk out' pushes =>
          have hups : ∀ q, q ∈ upstreamLocalPaths top.2 → q ∈ U :=
            hstack top (List.mem_cons_self _ _)
          have hmeas := lookProcessUpstreams_measure cache U (upstreamLocalPaths top.2)
            visited out [] hups
          rw [hr] at hmeas
          simp only [List.length_nil] at hmeas
          have hpush := lookProcessUpstreams_pushes cache (upstreamLocalPaths top.2)
            visited out []
          rw [hr] at hpush
          refine ih (pushes.reverse ++ rest) visited' out' ?_ ?_
          · intro pc hpc q hq
            rcases List.mem_append.mp hpc with hmem | hmem
            · rcases hpush pc (List.mem_reverse.mp hmem) with hnil | hfound
              · simp at hnil
              · have hpair : (pc.1, pc.2) ∈ cache := assocGet_mem cache pc.1 pc.2 hfound
                exact hcache (pc.1, pc.2) hpair q hq
            · exact hstack pc (List.mem_cons_of_mem _ hmem) q hq
          · simp only [List.length_append, List.length_reverse, List.length_cons] at hm ⊢
            omega

/-- Universe of candidate `Local` upstream paths: those of the root config and
of every cached config. -/
def allLocalPaths (cache : List (String × Repository)) (config : Repository) : List String :=
  upstreamLocalPaths config ++ (cache.map (fun pr => upstreamLocalPaths pr.2)).flatten

/-- The all-fields-absent repository configuration (`Repository::default`). -/
def emptyRepository : Repository :=
  { stores_remote_upstream := none, publicly_readable := none, hide_directory_listings := none,
    infer_content_type_on_file_extension := none, time_fresh := none, max_file_size := none,
    cache_control_file := [], cache_control_metadata := [], cache_control_dir_listings := [],
    cache_control_status_code := [], upstreams := [], tokens := [] }

/-- A repository named "A" whose single `Local` upstream is "A" itself. -/
def selfLoopRepo : Repository := { emptyRepository with upstreams := [.local ⟨"A"⟩] }

/-- Claim C7, counterexample: with the self-cycle config `A → Local "A"` (cached),
the expansion returns the root path "A" twice — the claim's "each reachable
repository path, including the root repository itself, appears at most once"
is false.  The root is pushed to the output before `check_repo` starts, but it
is never pre-inserted into the `visited` set, so a `Local` cycle back to the
root pushes it a second time. -/
theorem get_repo_look_locations_root_appears_twice :
    (get_repo_look_locations [("A", selfLoopRepo)] 5 "A" selfLoopRepo).map
      (fun out => countPath out "A") = some 2 := by rfl

/-- Claim C7 (amended): for every repository configuration, including cyclic or
diamond-shaped `Local`-upstream graphs, `get_repo_look_locations` terminates
(some finite fuel suffices for the modelled loop), every reachable repository
path other than the root appears at most once in the returned look locations,
and the root itself appears at most twice (a second time exactly when a
`Local`-upstream cycle leads back to it — the root is not pre-inserted into
the `visited` set). -/
theorem get_repo_look_locations_terminates_and_bounded
    (cache : List (String × Repository)) (repo : String) (config : Repository) :
    (∃ fuel out, get_repo_look_locations cache fuel repo config = some out) ∧
    (∀ fuel out, get_repo_look_locations cache fuel repo config = some out →
      countPath out repo ≤ 2 ∧ ∀ p, p ≠ repo → countPath out p ≤ 1) := by
  constructor
  · have hcache : ∀ pr, pr ∈ cache →
        ∀ q, q ∈ upstreamLocalPaths pr.2 → q ∈ allLocalPaths cache config := by
      intro pr hpr q hq
      refine List.mem_append.mpr (Or.inr ?_)
      exact List.mem_flatten.mpr ⟨upstreamLocalPaths pr.2, List.mem_map.mpr ⟨pr, hpr, rfl⟩, hq⟩
    have hstack : ∀ pc, pc ∈ [(repo, config)] →
        ∀ q, q ∈ upstreamLocalPaths pc.2 → q ∈ allLocalPaths cache config := by
      intro pc hpc q hq
      have : pc = (repo, config) := by simpa using hpc
      subst this
      exact List.mem_append.mpr (Or.inl hq)
    have hm : unvisitedCount (allLocalPaths cache config) [] + ([(repo, config)] : List _).length
        < unvisitedCount (allLocalPaths cache config) [] + 2 := by
      simp
    have h := lookLoop_isSome cache (allLocalPaths cache config) hcache
      (unvisitedCount (allLocalPaths cache config) [] + 2)
      [(repo, config)] [] [(repo, config)] hstack hm
    refine ⟨unvisitedCount (allLocalPaths cache config) [] + 2, ?_⟩
    unfold get_repo_look_locations
    cases hx : lookLoop cache (unvisitedCount (allLocalPaths cache config) [] + 2)
        [(repo, config)] [] [(repo, config)] with
    | none => rw [hx] at h; simp at h
    | some res => exact ⟨res.1, rfl⟩
  · intro fuel out hout
    unfold get_repo_look_locations at hout
    cases hx : lookLoop cache fuel [(repo, config)] [] [(repo, config)] with
    | none => rw [hx] at hout; simp at hout
    | some res =>
      rw [hx] at hout
      simp only [Option.map_some', Option.some.injEq] at hout
      have hInv : ∀ q, countPath [(repo, config)] q ≤ rootBonus repo q + memBonus [] q := by
        intro q
        by_cases hq : repo = q
        · rw [countPath_single_eq _ _ hq]
          unfold rootBonus
          rw [if_pos hq.symm]
          omega
        · rw [countPath_single_ne _ _ hq]
          omega
      have hcount := lookLoop_count cache repo fuel [(repo, config)] [] [(repo, config)] res hInv hx
      subst hout
      constructor
      · have := hcount repo
        unfold rootBonus at this
        rw [if_pos rfl] at this
        omega
      · intro p hp
        have := hcount p
        unfold rootBonus at this
        rw [if_neg hp] at this
        omega

/-- Claim C7, witness: the amended theorem applied at the concrete self-cycle
configuration. -/
theorem get_repo_look_locations_terminates_and_bounded_witness :
    countPath [("A", selfLoopRepo), ("A", selfLoopRepo)] "A" ≤ 2 ∧
    countPath [("A", selfLoopRepo), ("A", selfLoopRepo)] "B" ≤ 1 :=
  ⟨((get_repo_look_locations_terminates_and_bounded [("A", selfLoopRepo)] "A" selfLoopRepo).2 5
      [("A", selfLoopRepo), ("A", selfLoopRepo)] rfl).1,
   ((get_repo_look_locations_terminates_and_bounded [("A", selfLoopRepo)] "A" selfLoopRepo).2 5
      [("A", selfLoopRepo), ("A", selfLoopRepo)] rfl).2 "B" (by decide)⟩

/-- Claim C2: for a 32-byte BLAKE3 digest, the ETag header value is exactly the
quoted string `"blake3-<b64>"` — the literal `blake3-` prefixed inside the
quotes to the standard base64 encoding of the digest, which is 44 characters
and carries its `=` padding (here exactly one trailing `=`, with no `=`
anywhere else in the encoding). -/
theorem etagHeaderValue_spec (h : List Nat) (hlen : h.length = 32) :
    etagHeaderValue h = '"' :: ("blake3-".toList ++ base64StandardEncode h ++ ['"']) ∧
    (base64StandardEncode h).length = 44 ∧
    (∃ cs, base64StandardEncode h = cs ++ ['='] ∧ '=' ∉ cs) := by
  refine ⟨rfl, ?_, ?_⟩
  · rw [base64StandardEncode_length, hlen]
  · exact base64StandardEncode_pad h (by rw [hlen])

/-- Claim C2, witness: the theorem applied to the all-zero 32-byte digest. -/
theorem etagHeaderValue_spec_witness :
    etagHeaderValue (List.replicate 32 0) =
      '"' :: ("blake3-".toList ++ base64StandardEncode (List.replicate 32 0) ++ ['"']) ∧
    (base64StandardEncode (List.replicate 32 0)).length = 44 ∧
    (∃ cs, base64StandardEncode (List.replicate 32 0) = cs ++ ['='] ∧ '=' ∉ cs) :=
  etagHeaderValue_spec (List.replicate 32 0) (by simp)

/-! ## ETag validators (src/etag.rs) and the conditional-request engine
(src/get/header.rs, `header_check`)

Header values are modelled as `List Char` (Rust `&str` slices; the string
helpers mirror Rust's `strip_prefix` / `strip_suffix` / `split`).  The
prefixes stripped here are ASCII, so Rust's byte lengths and character
counts agree. -/

/-- Rust `str::strip_prefix`. -/
def stripPre (pre s : List Char) : Option (List Char) :=
  if pre.isPrefixOf s then some (s.drop pre.length) else none

/-- Rust `str::strip_suffix`. -/
def stripSuf (suf s : List Char) : Option (List Char) :=
  if suf.isSuffixOf s then some (s.take (s.length - suf.length)) else none

/-- Rust `str::split` on a single-character pattern. -/
def splitOnChar (c : Char) : List Char → List (List Char)
  | [] => [[]]
  | x :: rest =>
    if x = c then [] :: splitOnChar c rest
    else
      match splitOnChar c rest with
      | [] => [[x]]
      | s :: ss => (x :: s) :: ss

structure ETag where
  weak : Bool
  tag : List Char
deriving DecidableEq, Repr

inductive ETagValidator where
  | any
  | tags (v : List ETag)
deriving DecidableEq, Repr

/-- `ETag::parse` (src/etag.rs lines 31-48): strip an optional `W/`, then the
value must be enclosed in double quotes. -/
def ETag.parse (value : List Char) : Option ETag :=
  let p := match stripPre ['W', '/'] value with
    | some v => (true, v)
    | none => (false, value)
  (stripPre ['"'] p.2).bind fun v1 =>
    (stripSuf ['"'] v1).map fun tag => { weak := p.1, tag := tag }

/-- The `for value in value.split(",")` loop of `ETagValidator::parse`: each
comma-separated element, after one optional leading space, must parse as an
entity-tag; the `?` aborts the whole parse on the first failure. -/
def parseTagList : List (List Char) → Option (List ETag)
  | [] => some []
  | v :: rest =>
    match ETag.parse ((stripPre [' '] v).getD v) with
    | none => none
    | some t => (parseTagList rest).map (fun ts => t :: ts)

/-- `ETagValidator::parse` (src/etag.rs lines 17-27). -/
def ETagValidator.parse (value : List Char) : Option ETagValidator :=
  if value = ['*'] then some .any
  else (parseTagList (splitOnChar ',' value)).map .tags

/-- Response bodies distinguishable by `header_check`: `Content::None`, the
served file body (mmap or listing), or an error string. -/
inductive HContent where
  | empty
  | body
  | str (s : List Char)
deriving DecidableEq, Repr

/-- The slice of `Return` the conditional engine determines (status code and body). -/
structure HReturn where
  status : Nat
  content : HContent
deriving DecidableEq, Repr

/-- The `If-None-Match` loop of `header_check` (src/get/header.rs lines 96-132):
`tagMatches` models `ETag::matches` resolved against the served hash (the
BLAKE3 compare, or the lazily computed SHA3-512 for legacy tags), with
`unwrap_or(false)` folded in.  An unparsable value returns 400 immediately; `*`
sets 304 and breaks; a matching tag sets 304 but the outer loop continues. -/
def inmLoop (tagMatches : ETag → Bool) :
    List (List Char) → HContent → Nat → Except HReturn (HContent × Nat)
  | [], content, status => .ok (content, status)
  | i :: rest, content, status =>
    match ETagValidator.parse i with
    | some .any => .ok (HContent.empty, 304)
    | some (.tags v) =>
      if v.any (fun tag => tagMatches tag) then inmLoop tagMatches rest HContent.empty 304
      else inmLoop tagMatches rest content status
    | none =>
      .error { status := 400, content := .str ("Bad If-None-Match header: ".toList ++ i) }

/-- The `If-Match` loop of `header_check` (src/get/header.rs lines 134-168):
accumulates `any_match`; `*` breaks with a match; parse failure returns 400. -/
def imLoop (tagMatches : ETag → Bool) : List (List Char) → Bool → Except HReturn Bool
  | [], acc => .ok acc
  | i :: rest, acc =>
    match ETagValidator.parse i with
    | some .any => .ok true
    | some (.tags v) => imLoop tagMatches rest (acc || v.any (fun tag => tagMatches tag))
    | none => .error { status := 400, content := .str ("Bad If-Match header: ".toList ++ i) }

/-- The `If-Modified-Since` loop (src/get/header.rs lines 192-230).  Header
values arrive as `(raw, chrono::DateTime::parse_from_rfc2822 result)` pairs;
the parse error's display text is abstracted away from the 400 body. -/
def imsLoop (mt : Int) : List (List Char × Option Int) → Option HReturn
  | [] => none
  | (raw, parsed) :: rest =>
    match parsed with
    | some t =>
      if t > mt then some { status := 304, content := .empty }
      else imsLoop mt rest
    | none =>
      some { status := 400,
             content := .str ("Invalid value '".toList ++ raw ++
               "' in If-Modified-Since header".toList) }

/-- The `If-Unmodified-Since` loop (src/get/header.rs lines 232-268).  Its 400
body reuses the `If-Modified-Since` wording, exactly as the source does. -/
def iusLoop (mt : Int) : List (List Char × Option Int) → Option HReturn
  | [] => none
  | (raw, parsed) :: rest =>
    match parsed with
    | some t =>
      if t ≤ mt then some { status := 412, content := .empty }
      else iusLoop mt rest
    | none =>
      some { status := 400,
             content := .str ("Invalid value '".toList ++ raw ++
               "' in If-Modified-Since header".toList) }

/-- `header_check`'s conditional-request evaluation (src/get/header.rs lines
95-291): If-None-Match, then If-Match, then — only under the source's guard —
If-Modified-Since and If-Unmodified-Since.  `mtime` is the maximal
modification time over the merged metadata entries (`none` when every
`metadata.modified()` call failed, which the source answers with 400). -/
def header_check (tagMatches : ETag → Bool) (inm im : List (List Char))
    (ims ius : List (List Char × Option Int)) (mtime : Option Int) : HReturn :=
  let contains_none_match := !inm.isEmpty
  match inmLoop tagMatches inm HContent.body 200 with
  | .error r => r
  | .ok (content, status) =>
    let ifMatchOutcome : Option HReturn :=
      if !im.isEmpty then
        match imLoop tagMatches im false with
        | .error r => some r
        | .ok true => none
        | .ok false => some { status := 412, content := .empty }
      else none
    match ifMatchOutcome with
    | some r => r
    | none =>
      if !ius.isEmpty || (!contains_none_match && !ims.isEmpty) then
        match mtime with
        | some mt =>
          match (if !contains_none_match then imsLoop mt ims else none) with
          | some r => r
          | none =>
            match iusLoop mt ius with
            | some r => r
            | none => { status := status, content := content }
        | none => { status := 400, content := .str "Could not get Modification time".toList }
      else { status := status, content := content }

/-- Does a string start and end with a double quote (with at least the one
quote character before the final one)? -/
def quotedTag (s : List Char) : Bool :=
  ['"'].isPrefixOf s && (['"'] : List Char).isSuffixOf (s.drop 1)

/-- Is a raw comma-separated `If-None-Match` element enclosed in double quotes
after one optional leading space and an optional `W/` prefix? -/
def elementQuoted (e : List Char) : Bool :=
  let e1 := (stripPre [' '] e).getD e
  quotedTag ((stripPre ['W', '/'] e1).getD e1)

theorem quote_core (v : List Char) (f : List Char → ETag) :
    ((stripPre ['"'] v).bind fun v1 => (stripSuf ['"'] v1).map f) = none ↔
      quotedTag v = false := by
  unfold stripPre stripSuf quotedTag
  by_cases hp : (['"'] : List Char).isPrefixOf v
  · rw [if_pos hp]
    simp only [Option.some_bind]
    by_cases hs : (['"'] : List Char).isSuffixOf (v.drop (['"'] : List Char).length)
    · rw [if_pos hs]
      replace hs : (['"'] : List Char) <:+ v.tail := by
        simpa [List.isSuffixOf_iff_suffix] using hs
      simp [hp, hs]
    · rw [if_neg hs]
      replace hs : ¬ (['"'] : List Char) <:+ v.tail := by
        simpa [List.isSuffixOf_iff_suffix] using hs
      simp only [Bool.eq_false_iff, ne_eq, Bool.and_eq_true, List.isSuffixOf_iff_suffix]
      simp [hp, hs]
  · rw [if_neg hp]
    simp [hp]

theorem ETag_parse_eq_none_iff (s : List Char) :
    ETag.parse s = none ↔ quotedTag ((stripPre ['W', '/'] s).getD s) = false := by
  unfold ETag.parse
  cases hw : stripPre ['W', '/'] s with
  | some v => simpa using quote_core v (fun tag => { weak := true, tag := tag })
  | none => simpa using quote_core s (fun tag => { weak := false, tag := tag })

theorem parseTagList_eq_none (l : List (List Char))
    (h : ∃ e ∈ l, elementQuoted e = false) : parseTagList l = none := by
  induction l with
  | nil => simp at h
  | cons v rest ih =>
    rcases h with ⟨e, he, hbad⟩
    rcases List.mem_cons.mp he with rfl | hmem
    · have : ETag.parse ((stripPre [' '] e).getD e) = none := by
        rw [ETag_parse_eq_none_iff]
        simpa [elementQuoted] using hbad
      simp [parseTagList, this]
    · cases hp : ETag.parse ((stripPre [' '] v).getD v) with
      | none => simp [parseTagList, hp]
      | some t => simp [parseTagList, hp, ih ⟨e, hmem, hbad⟩]

/-- Claim C10: an `If-None-Match` value other than `*` with a comma-separated
element that is not enclosed in double quotes (after one optional leading
space and an optional `W/` prefix) fails `ETagValidator::parse`, and the GET
handler answers 400 with body `Bad If-None-Match header: <value>` instead of
ignoring the malformed validator and serving the file. -/
theorem if_none_match_malformed_400 (tagMatches : ETag → Bool)
    (im : List (List Char)) (ims ius : List (List Char × Option Int)) (mtime : Option Int)
    (v : List Char) (hstar : v ≠ ['*'])
    (hbad : ∃ e ∈ splitOnChar ',' v, elementQuoted e = false) :
    ETagValidator.parse v = none ∧
    header_check tagMatches [v] im ims ius mtime =
      { status := 400, content := .str ("Bad If-None-Match header: ".toList ++ v) } := by
  have hp : ETagValidator.parse v = none := by
    unfold ETagValidator.parse
    rw [if_neg hstar, parseTagList_eq_none _ hbad]
    rfl
  refine ⟨hp, ?_⟩
  simp [header_check, inmLoop, hp]

/-- Claim C10, witness: the value `blah` (one unquoted element). -/
theorem if_none_match_malformed_400_witness :
    ETagValidator.parse "blah".toList = none ∧
    header_check (fun _ => false) ["blah".toList] [] [] [] none =
      { status := 400, content := .str ("Bad If-None-Match header: ".toList ++ "blah".toList) } :=
  if_none_match_malformed_400 (fun _ => false) [] [] [] none "blah".toList (by decide)
    ⟨"blah".toList, by decide, by decide⟩

theorem iusLoop_status (mt : Int) :
    ∀ (l : List (List Char × Option Int)) (r : HReturn),
    iusLoop mt l = some r → r.status = 412 ∨ r.status = 400 := by
  intro l
  induction l with
  | nil => intro r h; simp [iusLoop] at h
  | cons e rest ih =>
    intro r h
    cases e with
    | mk raw parsed =>
      cases parsed with
      | some t =>
        simp only [iusLoop] at h
        by_cases ht : t ≤ mt
        · rw [if_pos ht] at h
          cases h
          left; rfl
        · rw [if_neg ht] at h
          exact ih r h
      | none =>
        simp only [iusLoop, Option.some.injEq] at h
        cases h
        right; rfl

/-- Claim C6 (amended): `If-Modified-Since` is evaluated only when no
`If-None-Match` header was present (with `If-None-Match` present the response
does not depend on the `If-Modified-Since` values at all); when it is
evaluated, the response is 304 with empty body exactly when the header time is
**strictly greater** than the file mtime — at equality the file is served
(status 200), not 304; an unparseable header value yields status 400. -/
theorem if_modified_since_semantics (tagMatches : ETag → Bool) :
    (∀ (inm im : List (List Char)) (ims ims' ius : List (List Char × Option Int))
       (mtime : Option Int), inm ≠ [] →
      header_check tagMatches inm im ims ius mtime =
        header_check tagMatches inm im ims' ius mtime) ∧
    (∀ (raw : List Char) (t m : Int) (ius : List (List Char × Option Int)),
      header_check tagMatches [] [] [(raw, some t)] ius (some m) =
        { status := 304, content := .empty } ↔ t > m) ∧
    (∀ (raw : List Char) (m : Int) (ius : List (List Char × Option Int)),
      header_check tagMatches [] [] [(raw, none)] ius (some m) =
        { status := 400, content := .str ("Invalid value '".toList ++ raw ++
            "' in If-Modified-Since header".toList) }) := by
  refine ⟨?_, ?_, ?_⟩
  · intro inm im ims ims' ius mtime hne
    cases inm with
    | nil => exact absurd rfl hne
    | cons i rest => simp [header_check]
  · intro raw t m ius
    by_cases ht : t > m
    · simp [header_check, inmLoop, imsLoop, ht]
    · simp only [header_check, inmLoop, imsLoop, List.isEmpty_nil, Bool.not_true,
        List.isEmpty_cons, Bool.not_false, Bool.true_and, Bool.or_true, if_true,
        if_neg ht, ite_true]
      cases hr : iusLoop m ius with
      | none =>
        simp [hr]
        omega
      | some r =>
        simp [hr]
        constructor
        · intro h
          rcases iusLoop_status m ius r hr with h4 | h4 <;> rw [h] at h4 <;> simp at h4
        · intro h
          exact absurd h ht
  · intro raw m ius
    simp [header_check, inmLoop, imsLoop]

/-- Claim C6, counterexample: when the file mtime equals the
`If-Modified-Since` time (both `5`), the claim's reading (`mtime > header`
false, hence 304) predicts a 304, but `header_check` serves the file with
status 200 — the source's test is `http_time > modification_datetime`,
strict. -/
theorem if_modified_since_equal_serves_file :
    header_check (fun _ => false) [] [] [("date".toList, some 5)] [] (some 5) =
      { status := 200, content := .body } := rfl

/-- Claim C6, witness: the amended theorem applied at concrete headers. -/
theorem if_modified_since_semantics_witness :
    (header_check (fun _ => false) [['a']] [] [(['b'], some 1)] [] (some 0) =
      header_check (fun _ => false) [['a']] [] [(['c'], some 99)] [] (some 0)) ∧
    (header_check (fun _ => false) [] [] [(['d'], some 6)] [] (some 5) =
      { status := 304, content := .empty } ↔ (6 : Int) > 5) ∧
    (header_check (fun _ => false) [] [] [(['e'], none)] [] (some 5) =
      { status := 400, content := .str ("Invalid value '".toList ++ ['e'] ++
        "' in If-Modified-Since header".toList) }) :=
  ⟨(if_modified_since_semantics (fun _ => false)).1 [['a']] [] [(['b'], some 1)]
      [(['c'], some 99)] [] (some 0) (by simp),
   (if_modified_since_semantics (fun _ => false)).2.1 ['d'] 6 5 [],
   (if_modified_since_semantics (fun _ => false)).2.2 ['e'] 5 []⟩

theorem find_filter_none {α : Type} (o : List (String × α)) (k : String)
    (ho : assocGet o k = none) :
    ∀ (s : List (String × α)),
    (s.filter (fun kv => (assocGet o kv.1).isNone)).find? (fun p => p.1 == k) =
      s.find? (fun p => p.1 == k) := by
  intro s
  induction s with
  | nil => rfl
  | cons kv rest ih =>
    by_cases hk : kv.1 = k
    · have hq : (assocGet o kv.1).isNone = true := by rw [hk, ho]; rfl
      rw [List.filter_cons, if_pos hq]
      simp [hk, ih]
    · have hpk : (kv.1 == k) = false := by simp [hk]
      by_cases hq : (assocGet o kv.1).isNone = true
      · rw [List.filter_cons, if_pos hq]
        simp [hpk, ih]
      · rw [List.filter_cons, if_neg hq]
        simp [hpk, ih]

theorem assocGet_append {α : Type} (l1 l2 : List (String × α)) (k : String) :
    assocGet (l1 ++ l2) k = (assocGet l1 k).or (assocGet l2 k) := by
  unfold assocGet
  rw [List.find?_append]
  cases l1.find? (fun p => p.1 == k) <;> simp

theorem assocGet_hashMapExtend {α : Type} (s o : List (String × α)) (k : String) :
    assocGet (hashMapExtend s o) k = (assocGet o k).or (assocGet s k) := by
  unfold hashMapExtend
  rw [assocGet_append]
  cases ho : assocGet o k with
  | some v => simp
  | none =>
    simp only [Option.none_or]
    show (((s.filter (fun kv => (assocGet o kv.1).isNone)).find? (fun p => p.1 == k)).map
      (fun p => p.2)) = assocGet s k
    rw [find_filter_none o k ho s]
    rfl

def tokenA : Token := { hash := "hA", paths := [] }

def tokenB : Token := { hash := "hB", paths := [] }

/-- A repository config with a token for `alice` and no `time_fresh`. -/
def mergeSelfRepo : Repository := { emptyRepository with tokens := [("alice", tokenA)] }

/-- A main config with `time_fresh` set and its own token for `alice`. -/
def mergeMainRepo : Repository :=
  { emptyRepository with time_fresh := some 7, tokens := [("alice", tokenB)] }

/-- Claim C8, counterexample: `merge` is not preferring-self over *every*
scalar — `time_fresh` is simply never merged (self's `None` survives even
though the main config has `Some 7`) — and the token map is not additive:
on a username collision the main config's binding replaces self's, so self's
entry `("alice", tokenA)` is no longer present after the merge. -/
theorem Repository_merge_claim_counterexample :
    (mergeSelfRepo.merge mergeMainRepo).time_fresh = none ∧
    mergeSelfRepo.time_fresh = none ∧
    mergeMainRepo.time_fresh = some 7 ∧
    ("alice", tokenA) ∈ mergeSelfRepo.tokens ∧
    ("alice", tokenA) ∉ (mergeSelfRepo.merge mergeMainRepo).tokens := by
  refine ⟨rfl, rfl, rfl, by decide, by decide⟩

/-- Claim C8 (amended): `Repository::merge` is additive for the three header
lists; the token map is keywise complete but the main config's binding wins on
username collision (lookup falls back to self only for usernames the main
config lacks); the five scalar `Option` fields `stores_remote_upstream`,
`publicly_readable`, `hide_directory_listings`,
`infer_content_type_on_file_extension` and `max_file_size` are
preferring-self; `time_fresh` is not merged at all — the merged value is
always self's, even when self's is `None` and the main config's is set. -/
theorem Repository_merge_semantics (self other : Repository) :
    (((∀ v, self.stores_remote_upstream = some v →
        (self.merge other).stores_remote_upstream = some v) ∧
      (self.stores_remote_upstream = none →
        (self.merge other).stores_remote_upstream = other.stores_remote_upstream)) ∧
     ((∀ v, self.publicly_readable = some v →
        (self.merge other).publicly_readable = some v) ∧
      (self.publicly_readable = none →
        (self.merge other).publicly_readable = other.publicly_readable)) ∧
     ((∀ v, self.hide_directory_listings = some v →
        (self.merge other).hide_directory_listings = some v) ∧
      (self.hide_directory_listings = none →
        (self.merge other).hide_directory_listings = other.hide_directory_listings)) ∧
     ((∀ v, self.infer_content_type_on_file_extension = some v →
        (self.merge other).infer_content_type_on_file_extension = some v) ∧
      (self.infer_content_type_on_file_extension = none →
        (self.merge other).infer_content_type_on_file_extension =
          other.infer_content_type_on_file_extension)) ∧
     ((∀ v, self.max_file_size = some v → (self.merge other).max_file_size = some v) ∧
      (self.max_file_size = none →
        (self.merge other).max_file_size = other.max_file_size))) ∧
    (self.merge other).time_fresh = self.time_fresh ∧
    ((∀ h, h ∈ (self.merge other).cache_control_file ↔
        h ∈ self.cache_control_file ∨ h ∈ other.cache_control_file) ∧
     (∀ h, h ∈ (self.merge other).cache_control_metadata ↔
        h ∈ self.cache_control_metadata ∨ h ∈ other.cache_control_metadata) ∧
     (∀ h, h ∈ (self.merge other).cache_control_dir_listings ↔
        h ∈ self.cache_control_dir_listings ∨ h ∈ other.cache_control_dir_listings)) ∧
    (∀ k, assocGet (self.merge other).tokens k =
        (assocGet other.tokens k).or (assocGet self.tokens k)) := by
  refine ⟨⟨⟨?_, ?_⟩, ⟨?_, ?_⟩, ⟨?_, ?_⟩, ⟨?_, ?_⟩, ⟨?_, ?_⟩⟩, rfl, ⟨?_, ?_, ?_⟩, ?_⟩
  · intro v hv; simp [Repository.merge, hv]
  · intro hv; simp [Repository.merge, hv]
  · intro v hv; simp [Repository.merge, hv]
  · intro hv; simp [Repository.merge, hv]
  · intro v hv; simp [Repository.merge, hv]
  · intro hv; simp [Repository.merge, hv]
  · intro v hv; simp [Repository.merge, hv]
  · intro hv; simp [Repository.merge, hv]
  · intro v hv; simp [Repository.merge, hv]
  · intro hv; simp [Repository.merge, hv]
  · intro h; simp [Repository.merge]
  · intro h; simp [Repository.merge]
  · intro h; simp [Repository.merge]
  · intro k; exact assocGet_hashMapExtend self.tokens other.tokens k

/-- Claim C8, witness: the amended theorem applied at the two concrete configs. -/
theorem Repository_merge_semantics_witness :
    (mergeSelfRepo.merge mergeMainRepo).publicly_readable = mergeMainRepo.publicly_readable ∧
    (mergeSelfRepo.merge mergeMainRepo).time_fresh = mergeSelfRepo.time_fresh ∧
    assocGet (mergeSelfRepo.merge mergeMainRepo).tokens "alice" =
      (assocGet mergeMainRepo.tokens "alice").or (assocGet mergeSelfRepo.tokens "alice") :=
  ⟨((Repository_merge_semantics mergeSelfRepo mergeMainRepo).1.2.1).2 rfl,
   (Repository_merge_semantics mergeSelfRepo mergeMainRepo).2.1,
   (Repository_merge_semantics mergeSelfRepo mergeMainRepo).2.2.2 "alice"⟩

/-- Claim C9: when `publicly_readable` is unset or `true`, `check_auth` for a
GET returns `Ok(false)` whatever the credentials: the result is identical for
any two credential inputs (absent ones included), any two bcrypt oracles, and
any two request paths — neither the token table nor bcrypt verification is
consulted. -/
theorem check_auth_public_get (repo : Repository)
    (hpub : repo.publicly_readable = none ∨ repo.publicly_readable = some true)
    (bcrypt1 bcrypt2 : String → String → Option Bool)
    (auth1 auth2 : Option BasicAuthentication) (path1 path2 : String) :
    repo.check_auth bcrypt1 .get auth1 path1 = .ok false ∧
    repo.check_auth bcrypt2 .get auth2 path2 = .ok false := by
  rcases hpub with h | h <;>
    exact ⟨by simp [Repository.check_auth, h], by simp [Repository.check_auth, h]⟩

/-- Claim C9, witness: the default (unset) config with and without credentials. -/
theorem check_auth_public_get_witness :
    emptyRepository.check_auth (fun _ _ => some true) .get
      (some { username := "alice", password := "pw" }) "g/a" = .ok false ∧
    emptyRepository.check_auth (fun _ _ => none) .get none "g/b" = .ok false :=
  check_auth_public_get emptyRepository (Or.inl rfl) (fun _ _ => some true) (fun _ _ => none)
    (some { username := "alice", password := "pw" }) none "g/a" "g/b"

/-! ## The resolution pipeline's combine rule (`check_result`, src/get.rs lines
341-370 and src/get/interal_impl.rs lines 24-58)

`resolve_impl` collects task completions from a `JoinSet` in completion
order.  We model the completion sequence as a list of task outcomes and
replay the `while let Some(task) = js.join_next().await` loop.  The
`StoredRepoPath` variants carry an id so distinct results are
distinguishable; `DirListing` merging (`entries.extend`, `metadata.append`)
is modelled on lists. -/

inductive StoredRepoPath where
  | mmap (id : Nat)
  | upstream (id : Nat)
  | isADir
  | dirListing (metadata : List Nat) (entries : List String)
deriving DecidableEq, Repr

inductive GetErr where
  | notFound
  | panicked
  | other (id : Nat)
deriving DecidableEq, Repr

/-- One `JoinSet` completion: `Ok(Ok(v))`, or `Ok(Err(errs))` / `Err(panic)`
both of which only extend the error list. -/
inductive TaskOutcome where
  | ok (v : StoredRepoPath)
  | errs (e : List GetErr)
deriving DecidableEq, Repr

/-- The `check_result` closure of `resolve_impl`: fold the completion sequence
over the accumulated `out`, with the source's arm order — `IsADir` always
returns immediately; two `DirListing`s merge; any other combination with an
accumulated `Some(out)` aborts the siblings and returns **the accumulated
value**; a first result is just accumulated. -/
def check_result : List TaskOutcome → Option StoredRepoPath → List GetErr →
    Option StoredRepoPath × List GetErr
  | [], out, errors => (out, errors)
  | .errs e :: rest, out, errors => check_result rest out (errors ++ e)
  | .ok v :: rest, out, errors =>
    match out, v with
    | _, .isADir => (some .isADir, errors)
    | some (.dirListing md ent), .dirListing md1 ent1 =>
      check_result rest (some (.dirListing (md ++ md1) (ent ++ ent1))) errors
    | some o, _ => (some o, errors)
    | none, v => check_result rest (some v) errors

/-- Claim C1, counterexample: a directory listing completes first, then an
`Mmap` result completes — the combine rule returns the accumulated
`DirListing`, not the `Mmap`: the `(Some(out), _)` arm returns the *old*
accumulated value and drops the freshly completed non-`DirListing` result, so
the combined outcome *is* a `DirListing` although a task produced a
non-`DirListing` positive result. -/
theorem check_result_counterexample :
    check_result [.ok (.dirListing [7] ["x"]), .ok (.mmap 0)] none [] =
      (some (.dirListing [7] ["x"]), []) := rfl

/-- Claim C1 (amended): in the combine rule, once a `DirListing` has been
accumulated, a later completion with a non-`DirListing` positive result
(`Mmap` or `Upstream`) stops the collection (siblings are aborted) but the
**accumulated `DirListing` is returned and the non-`DirListing` result is
discarded**; only `IsADir` overrides an accumulated listing. -/
theorem check_result_dirlisting_wins (rest : List TaskOutcome)
    (md : List Nat) (ent : List String) (errors : List GetErr) (v : StoredRepoPath)
    (hnl : ∀ md1 ent1, v ≠ .dirListing md1 ent1) (hnd : v ≠ .isADir) :
    check_result (.ok v :: rest) (some (.dirListing md ent)) errors =
      (some (.dirListing md ent), errors) := by
  cases v with
  | mmap i => rfl
  | upstream i => rfl
  | isADir => exact absurd rfl hnd
  | dirListing md1 ent1 => exact absurd rfl (hnl md1 ent1)

/-- Claim C1, witness: the amended theorem applied to an `Mmap` completion
after an accumulated listing. -/
theorem check_result_dirlisting_wins_witness :
    check_result [.ok (.mmap 3)] (some (.dirListing [7] ["x"])) [] =
      (some (.dirListing [7] ["x"]), []) :=
  check_result_dirlisting_wins [] [7] ["x"] [] (.mmap 3) (by intro _ _ h; cases h)
    (by intro h; cases h)

/-! ## The PUT streaming writer (`WriteFile`, src/put.rs lines 297-331)

`WriteFile::poll_write` checks `self.read >= self.limit`, forwards the buffer
to the buffered file writer, then feeds the four hashers — but no statement
ever increments `read`, which stays at its initial `0`.  The inner file
write and the hashers are abstracted: `written` records the bytes accepted. -/

structure WriteFile where
  limit : Nat
  read : Nat
  written : List Nat
deriving DecidableEq, Repr

inductive PutErr where
  | putFileTooLarge
  | fileWriteFailed
deriving DecidableEq, Repr

/-- `WriteFile::poll_write`: the `FileTooLarge` IO error (mapped by `put_file`
to `PutFileTooLarge`, status 413) is produced only when `read >= limit`;
otherwise the chunk is written and hashed.  Faithfully to the source, `read`
is **not** advanced. -/
def WriteFile.poll_write (s : WriteFile) (buf : List Nat) : Except PutErr (Nat × WriteFile) :=
  if s.read ≥ s.limit then .error .putFileTooLarge
  else .ok (buf.length, { s with written := s.written ++ buf })

/-- The `tokio::io::copy` loop of `put_file`, feeding the body chunk by chunk. -/
def put_file_copy (s : WriteFile) : List (List Nat) → Except PutErr WriteFile
  | [] => .ok s
  | chunk :: rest =>
    match s.poll_write chunk with
    | .error e => .error e
    | .ok (_, s') => put_file_copy s' rest

/-- Claim C4: evaluation at the failing input — a 10-byte body against
`max_file_size = 5` is accepted in full (the running count `read` is still 0
afterwards), so the request is answered 201, not 413.  The limit check
`self.read >= self.limit` can only ever fire for `limit = 0` because `read`
is never incremented. -/
theorem put_file_ignores_limit :
    put_file_copy { limit := 5, read := 0, written := [] }
        [[1, 2, 3, 4, 5, 6, 7, 8, 9, 10]] =
      .ok { limit := 5, read := 0, written := [1, 2, 3, 4, 5, 6, 7, 8, 9, 10] } := rfl

/-! ## The remote fetcher's cleanup behaviour (`serve_remote_repository`,
src/get.rs lines 563-638 and src/get/remote.rs lines 109-194, storing branch)

The filesystem and upstream are driven by an event script: each chunk read
either yields `len` bytes (whose buffered write succeeds or fails) or fails;
then flush (`shutdown`), seek and the relock/mmap step each succeed or fail.
The returned `Bool` is whether the partially written local file still exists
when the function returns: the source calls `tokio::fs::remove_file` only in
the write-error (src/get/remote.rs lines 128-133) and flush-error (lines
143-148) paths. -/

inductive RemoteErr where
  | upstreamBodyReadError
  | upstreamFileTooLarge
  | fileWriteFailed
  | fileFlushFailed
  | fileSeekFailed
  | fileLockFailed
deriving DecidableEq, Repr

inductive ChunkEvent where
  | chunk (len : Nat) (writeOk : Bool)
  | readErr
deriving DecidableEq, Repr

structure RemoteScript where
  chunks : List ChunkEvent
  flushOk : Bool
  seekOk : Bool
  relockOk : Bool
deriving DecidableEq, Repr

/-- The chunk loop: `current_size += body.len()`, abort at
`current_size >= limit`, write through the buffered writer.  The error carries
whether the file still exists (`false` exactly for the write-error path, which
deletes it before returning). -/
def remoteChunkLoop (limit : Nat) : List ChunkEvent → Nat → Except (RemoteErr × Bool) Unit
  | [], _ => .ok ()
  | .readErr :: _, _ => .error (.upstreamBodyReadError, true)
  | .chunk len wOk :: rest, current_size =>
    if current_size + len ≥ limit then .error (.upstreamFileTooLarge, true)
    else if wOk then remoteChunkLoop limit rest (current_size + len)
    else .error (.fileWriteFailed, false)

/-- The storing branch of `serve_remote_repository` after the local file was
created: chunk loop, flush (deletes on failure), seek (no delete), relock/mmap
(no delete).  Returns the outcome and whether the local file still exists. -/
def serve_remote_store (limit : Nat) (script : RemoteScript) : Except RemoteErr Unit × Bool :=
  match remoteChunkLoop limit script.chunks 0 with
  | .error (e, stillThere) => (.error e, stillThere)
  | .ok () =>
    if !script.flushOk then (.error .fileFlushFailed, false)
    else if !script.seekOk then (.error .fileSeekFailed, true)
    else if !script.relockOk then (.error .fileLockFailed, true)
    else (.ok (), true)

/-- Claim C5, counterexample: when the upstream body read fails after the file
was created, the error is returned with the partial file still on disk — the
body-read error path has no `remove_file` call, contradicting "on every
failure after the file was created the partial file is deleted". -/
theorem serve_remote_keeps_file_on_read_error :
    serve_remote_store 100
        { chunks := [.chunk 10 true, .readErr], flushOk := true, seekOk := true,
          relockOk := true } =
      (.error .upstreamBodyReadError, true) := rfl

theorem remoteChunkLoop_deleted_iff (limit : Nat) :
    ∀ (chunks : List ChunkEvent) (size : Nat) (e : RemoteErr) (still : Bool),
    remoteChunkLoop limit chunks size = .error (e, still) →
    (still = false ↔ e = .fileWriteFailed) ∧
    (e = .upstreamBodyReadError ∨ e = .upstreamFileTooLarge ∨ e = .fileWriteFailed) := by
  intro chunks
  induction chunks with
  | nil => intro size e still h; simp [remoteChunkLoop] at h
  | cons ev rest ih =>
    intro size e still h
    cases ev with
    | readErr =>
      simp only [remoteChunkLoop, Except.error.injEq, Prod.mk.injEq] at h
      rcases h with ⟨he, hs⟩
      subst he; subst hs
      simp
    | chunk len wOk =>
      simp only [remoteChunkLoop] at h
      by_cases hl : size + len ≥ limit
      · rw [if_pos hl] at h
        simp only [Except.error.injEq, Prod.mk.injEq] at h
        rcases h with ⟨he, hs⟩
        subst he; subst hs
        simp
      · rw [if_neg hl] at h
        cases wOk with
        | true => exact ih (size + len) e still (by simpa using h)
        | false =>
          simp only [Bool.false_eq_true, if_false, Except.error.injEq, Prod.mk.injEq] at h
          rcases h with ⟨he, hs⟩
          subst he; subst hs
          simp

/-- Claim C5 (amended): in the storing remote fetcher, after the local cache
file was created, the partial file is deleted before returning **exactly** for
write failures and flush failures; upstream body-read errors, the
file-too-large abort, seek failures and lock/mmap failures return their error
with the partial file left in place (and a successful download also leaves
the file, now complete). -/
theorem serve_remote_store_delete_iff (limit : Nat) (script : RemoteScript) :
    (serve_remote_store limit script).2 = false ↔
      ((serve_remote_store limit script).1 = .error .fileWriteFailed ∨
       (serve_remote_store limit script).1 = .error .fileFlushFailed) := by
  unfold serve_remote_store
  cases hloop : remoteChunkLoop limit script.chunks 0 with
  | error pr =>
    cases pr with
    | mk e still =>
      obtain ⟨hiff, henum⟩ := remoteChunkLoop_deleted_iff limit script.chunks 0 e still hloop
      simp only [Except.error.injEq]
      constructor
      · intro hs
        exact Or.inl (hiff.mp hs)
      · intro hor
        rcases hor with he | he
        · exact hiff.mpr he
        · subst he
          rcases henum with h | h | h <;> cases h
  | ok u =>
    cases u
    by_cases hf : script.flushOk
    · by_cases hsk : script.seekOk
      · by_cases hrl : script.relockOk
        · simp [hf, hsk, hrl]
        · simp [hf, hsk, hrl]
      · simp [hf, hsk]
    · simp [hf]

/-! ## PUT path parsing (`PathInfo::parse`, src/path_info.rs lines 36-168)

The request path arrives as its list of `Component::Normal` parts (the PUT
handler has already rejected parent/root/prefix components and non-UTF-8).
Rust string splitting is mirrored on `List Char`: `rsplit_once` splits at the
last occurrence, `split_once` at the first; `u64::from_str_radix(_, 10)`
accepts an optional leading `+` followed by one or more decimal digits. -/

structure SnapshotInfo where
  timestamp : List Char
  build_number : Nat
deriving DecidableEq, Repr

structure PathInfo where
  group : List (List Char)
  artifact : List Char
  version : List Char
  snapshot : Option SnapshotInfo
  classifier : Option (List Char)
  extension : Option (List Char)
deriving DecidableEq, Repr

/-- Rust `str::rsplit_once` on a one-character pattern: split at the **last**
occurrence, returning `(before, after)` without the separator. -/
def rsplitOnceChar (c : Char) : List Char → Option (List Char × List Char)
  | [] => none
  | x :: rest =>
    match rsplitOnceChar c rest with
    | some (pre, suf) => some (x :: pre, suf)
    | none => if x = c then some ([], rest) else none

/-- Rust `str::split_once` on a one-character pattern: split at the **first**
occurrence. -/
def splitOnceChar (c : Char) : List Char → Option (List Char × List Char)
  | [] => none
  | x :: rest =>
    if x = c then some ([], rest)
    else (splitOnceChar c rest).map (fun pr => (x :: pr.1, pr.2))

/-- `u64::from_str_radix(s, 10)`: optional leading `+`, then at least one
decimal digit (overflow is not modelled). -/
def fromStrRadix10 (s : List Char) : Option Nat :=
  let s := match s with
    | '+' :: rest => rest
    | s => s
  if s.isEmpty then none
  else if s.all (fun ch => ch.isDigit) then
    some (s.foldl (fun acc ch => acc * 10 + (ch.toNat - 48)) 0)
  else none

/-- The reverse component walk of `PathInfo::parse` (lines 41-63): assign
`file_name`, then `version`, then `artifact`, then accumulate `group`. -/
def pathComponentWalk (components : List (List Char)) :
    Option (List Char) × Option (List Char) × Option (List Char) × List (List Char) :=
  components.reverse.foldl
    (fun acc i =>
      match acc with
      | (none, v, a, g) => (some i, v, a, g)
      | (some fn, none, a, g) => (some fn, some i, a, g)
      | (some fn, some v, none, g) => (some fn, some v, some i, g)
      | (some fn, some v, some a, g) => (some fn, some v, some a, g ++ [i]))
    (none, none, none, [])

/-- `PathInfo::parse`.  Note line 64 of the source: `let file_name = match
version { .. }` — the `file_name` variable collected by the walk is dropped
and the **version component** is used as the filename from here on; this
model reproduces that faithfully. -/
def PathInfo.parse (components : List (List Char)) : Except String PathInfo :=
  match pathComponentWalk components with
  | (_file_name_walk, version?, artifact?, group) =>
    match version? with
    | none => .error "Didn't find a File-Name in the path"
    | some file_name =>
      match version? with
      | none => .error "Didn't find a Version in the path"
      | some version =>
        match artifact? with
        | none => .error "Didn't find an Artifact-Id in the path"
        | some artifact =>
          if group.isEmpty then .error "Didn't find a Group-Id in the path"
          else
            let group := group.reverse
            let fe := match rsplitOnceChar '.' file_name with
              | some (name, ext) => (name, some ext)
              | none => (file_name, (none : Option (List Char)))
            match (stripPre artifact fe.1).bind (fun v => stripPre ['-'] v) with
            | none => .error "File didn't begin with artifact-id"
            | some file_name =>
              let vs := match stripSuf "-SNAPSHOT".toList version with
                | some v => (v, true)
                | none => (version, false)
              match (stripPre vs.1 file_name).bind (fun v => stripPre ['-'] v) with
              | none => .error "File didn't contain version"
              | some file_name =>
                if vs.2 then
                  match splitOnceChar '-' file_name with
                  | none => .error "File didn't contain Snapshot timestamp"
                  | some (timestamp, file_name) =>
                    match splitOnceChar '-' file_name with
                    | none => .error "File didn't contain Snapshot build-number"
                    | some (build_number, file_name) =>
                      match fromStrRadix10 build_number with
                      | none =>
                        .error "build-number in filename couldn't be parsed as a string"
                      | some bn =>
                        .ok { group := group, artifact := artifact, version := vs.1,
                              snapshot := some { timestamp := timestamp, build_number := bn },
                              classifier := if file_name.length > 0 then some file_name else none,
                              extension := fe.2 }
                else
                  .ok { group := group, artifact := artifact, version := vs.1,
                        snapshot := none,
                        classifier := if file_name.length > 0 then some file_name else none,
                        extension := fe.2 }

/-- Claim C3: evaluation at the failing input, the spec's own S6 scenario path
`g/h/1.0-SNAPSHOT/h-1.0-20240101.120000-3.jar`.  The claim (and the spec)
take the last component as the filename, so this path should parse (artifact
`h`, version `1.0`, snapshot timestamp `20240101.120000`, build 3).  The code
instead uses the **version component** `1.0-SNAPSHOT` as the filename
(src/path_info.rs line 64 matches on `version` where the collected
`file_name` was clearly intended), computes extension `0-SNAPSHOT`, fails to
strip the artifact prefix `h` from `1`, and rejects every such PUT with 400
`File didn't begin with artifact-id`. -/
theorem PathInfo_parse_uses_version_as_filename :
    PathInfo.parse ["g".toList, "h".toList, "1.0-SNAPSHOT".toList,
        "h-1.0-20240101.120000-3.jar".toList] =
      .error "File didn't begin with artifact-id" := rfl
